import Mathlib

/-!
Verification of the Jelly Bean World world-generation core against its
natural-language specification.  The development shallowly embeds the
relevant C++ source (src/jbw/gibbs_field.h, the energy-function registry,
and the Python binding layer in src/api/python/src/jbw/simulator.cpp) as
executable Lean definitions and proves the specified properties about them.

Modelling conventions:
* machine integers are embedded as `Int`/`Nat` with explicit `% 2 ^ 32`
  where 32-bit wraparound matters;
* `float` values are embedded as `ℚ`; the transcendental functions `exp`
  and `log` (and the raw RNG-to-[0,1] draw) appear only as opaque data
  that the sampler threads through unevaluated, so no floating-point
  rounding is modelled — none of the verified properties depend on it;
* a raw array read that may be out of bounds is embedded with `List.get?`,
  so an undefined (out-of-range) read is `none`.
-/

namespace jbw

/-- Modelled from the spec: `position` (src/jbw/position.h is not among the
provided sources) — a signed 64-bit pair (x, y) supporting vector addition,
subtraction and squared length.  Component overflow is not modelled; no
claim verified here depends on it. -/
structure position where
  x : Int
  y : Int
deriving DecidableEq, Repr

def position.add (a b : position) : position := ⟨a.x + b.x, a.y + b.y⟩

def position.sub (a b : position) : position := ⟨a.x - b.x, a.y - b.y⟩

instance : Add position := ⟨position.add⟩

instance : Sub position := ⟨position.sub⟩

instance : Inhabited position := ⟨⟨0, 0⟩⟩

/-- Embeds `position::squared_length` (x*x + y*y, mathematically; the C
return type is uint64). -/
def position.squared_length (p : position) : Int := p.x * p.x + p.y * p.y

theorem position.sub_shift (p1 p2 d : position) : (p1 + d) - (p2 + d) = p1 - p2 := by
  cases p1; cases p2; cases d
  show position.sub (position.add _ _) (position.add _ _) = position.sub _ _
  simp only [position.add, position.sub, position.mk.injEq]
  omega

/- ------------------------------------------------------------------ -/
/- Energy-function registry (src/unnamed/part_000, energy_functions.h) -/
/- ------------------------------------------------------------------ -/

/-- Embeds `zero_intensity_fn`. -/
def zero_intensity_fn (pos : position) (args : List ℚ) : ℚ := 0

/-- Embeds `constant_intensity_fn` (`return args[0]`; arg count is
validated to be at least 1 by the dispatcher). -/
def constant_intensity_fn (pos : position) (args : List ℚ) : ℚ := args.getD 0 0

/-- Embeds `murmurhash32_mix32` on uint32 values (wraparound via `% 2 ^ 32`). -/
def murmurhash32_mix32 (x : ℕ) : ℕ :=
  let x1 := x ^^^ (x >>> 16)
  let x2 := (x1 * 0x45d9f3b) % 2 ^ 32
  let x3 := x2 ^^^ (x2 >>> 16)
  let x4 := (x3 * 0x45d9f3b) % 2 ^ 32
  x4 ^^^ (x4 >>> 16)

/-- Embeds `hash_function` (`murmurhash32_mix32((x + shift) / scale) / UINT_MAX`;
the uint32 sum wraps). -/
def hash_function (x shift scale : ℕ) : ℚ :=
  (murmurhash32_mix32 (((x + shift) % 2 ^ 32) / scale) : ℚ) / ((2 ^ 32 - 1 : ℕ) : ℚ)

/-- Embeds the C cast `(uint32_t) f` of a nonnegative float argument
(truncation toward zero; a negative operand is undefined behaviour in C and
is mapped to 0 here). -/
def rat_toUInt32 (q : ℚ) : ℕ := q.floor.toNat

/-- Embeds `radial_hash_intensity_fn`.  `sqrt` of the uint64 squared length
cast to uint32 is embedded as `Nat.sqrt` (exact for the perfect squares the
cast truncates to). -/
def radial_hash_intensity_fn (pos : position) (args : List ℚ) : ℚ :=
  let shift := rat_toUInt32 (args.getD 0 0)
  let scale := rat_toUInt32 (args.getD 1 0)
  let s := (Nat.sqrt pos.squared_length.toNat + shift) % 2 ^ 32
  let x := hash_function s shift scale
  let x_next := hash_function (s + scale) shift scale
  let t_x0 : ℚ := ((s % scale : ℕ) : ℚ) / (scale : ℚ)
  let t_x := if t_x0 < 0 then t_x0 + 1 else t_x0
  args.getD 2 0 - (x * (1 - t_x) + x_next * t_x) * args.getD 3 0

/-- Embeds `zero_interaction_fn`. -/
def zero_interaction_fn (pos1 pos2 : position) (args : List ℚ) : ℚ := 0

/-- Embeds `piecewise_box_interaction_fn`.  The uint64 squared length is
compared against the float cutoffs; the comparison is exact in `ℚ`. -/
def piecewise_box_interaction_fn (pos1 pos2 : position) (args : List ℚ) : ℚ :=
  let squared_length := (pos1 - pos2).squared_length
  if (squared_length : ℚ) < args.getD 0 0 then args.getD 2 0
  else if (squared_length : ℚ) < args.getD 1 0 then args.getD 3 0
  else 0

/-- Embeds `gaussian_interaction_fn`; `exp` is passed in as the opaque
function `expf`. -/
def gaussian_interaction_fn (expf : ℚ → ℚ) (pos1 pos2 : position) (args : List ℚ) : ℚ :=
  let diff := pos1 - pos2
  let a0 := args.getD 0 0
  args.getD 1 0 *
    expf (-(diff.x * diff.x : ℚ) / (2 * a0 * a0) - (diff.y * diff.y : ℚ) / (2 * a0 * a0))

/-- Embeds `cross_interaction_fn` (`dist = max(abs(dx), abs(dy))`). -/
def cross_interaction_fn (pos1 pos2 : position) (args : List ℚ) : ℚ :=
  let diff := pos1 - pos2
  let dist := max diff.x.natAbs diff.y.natAbs
  if (dist : ℚ) ≤ args.getD 0 0 then
    (if diff.x = 0 ∨ diff.y = 0 then args.getD 2 0 else args.getD 4 0)
  else if (dist : ℚ) ≤ args.getD 1 0 then
    (if diff.x = 0 ∨ diff.y = 0 then args.getD 3 0 else args.getD 5 0)
  else 0

/-- Embeds `cross_hash_interaction_fn`.  The `(uint32_t) pos1.x` cast of an
int64 is reduction mod `2 ^ 32`. -/
def cross_hash_interaction_fn (pos1 pos2 : position) (args : List ℚ) : ℚ :=
  let scale := rat_toUInt32 (args.getD 0 0)
  let p1x : ℕ := (pos1.x % 2 ^ 32).toNat
  let x := hash_function p1x 0 scale
  let x_next := hash_function (p1x + scale) 0 scale
  let t_x0 : ℚ := ((p1x % scale : ℕ) : ℚ) / (scale : ℚ)
  let t_x := if t_x0 < 0 then t_x0 + 1 else t_x0
  let d := args.getD 2 0 * (x * (1 - t_x) + x_next * t_x) + args.getD 1 0
  let bigD := d + args.getD 3 0
  let diff := pos1 - pos2
  let dist := max diff.x.natAbs diff.y.natAbs
  if (dist : ℚ) ≤ d then
    (if diff.x = 0 ∨ diff.y = 0 then args.getD 4 0 else args.getD 6 0)
  else if (dist : ℚ) ≤ bigD then
    (if diff.x = 0 ∨ diff.y = 0 then args.getD 5 0 else args.getD 7 0)
  else 0

/-- Embeds `moore_interaction_fn`. -/
def moore_interaction_fn (pos1 pos2 : position) (args : List ℚ) : ℚ :=
  let diff := pos1 - pos2
  if diff.x.natAbs < 2 ∧ diff.y.natAbs < 2 then 1 else -200

/-- Embeds `four_interaction_fn`. -/
def four_interaction_fn (pos1 pos2 : position) (args : List ℚ) : ℚ :=
  let diff := pos1 - pos2
  if diff.x.natAbs < 1 ∧ diff.y.natAbs < 2 then 1
  else if diff.y.natAbs < 1 ∧ diff.x.natAbs < 2 then 1
  else -200

/-- Embeds `zero_regeneration_fn` (always-defined result). -/
def zero_regeneration_fn (pos : position) (time : ℕ) (args : List ℚ) : Option ℚ :=
  some 0

/-- Embeds `constant_regeneration_fn` (`return args[0]`, a raw read of the
first argument). -/
def constant_regeneration_fn (pos : position) (time : ℕ) (args : List ℚ) : Option ℚ :=
  args.get? 0

/-- Embeds `custom_regeneration_fn` (`return args[time]`): a raw read of the
args array at index `time` with NO bounds check, so the result is undefined
(`none`) whenever `time` is not below the argument count. -/
def custom_regeneration_fn (pos : position) (time : ℕ) (args : List ℚ) : Option ℚ :=
  args.get? time

/-- Embeds `get_intensity_fn(type, args, num_args)`.  Tags are the raw
uint64 enum values (ZERO = 0, CONSTANT = 1, RADIAL_HASH = 2); any other
value falls through the switch to `return NULL`. -/
def get_intensity_fn (tag : ℕ) (num_args : ℕ) : Option (position → List ℚ → ℚ) :=
  if tag = 0 then (if num_args ≠ 0 then none else some zero_intensity_fn)
  else if tag = 1 then (if num_args = 0 then none else some constant_intensity_fn)
  else if tag = 2 then (if num_args ≠ 4 then none else some radial_hash_intensity_fn)
  else none

/-- Embeds `get_interaction_fn(type, args, num_args)`.  Tags: ZERO = 0,
PIECEWISE_BOX = 1, CROSS = 2, CROSS_HASH = 3, MOORE = 4, GAUSSIAN = 5,
FOUR = 6. -/
def get_interaction_fn (expf : ℚ → ℚ) (tag : ℕ) (num_args : ℕ) :
    Option (position → position → List ℚ → ℚ) :=
  if tag = 0 then (if num_args ≠ 0 then none else some zero_interaction_fn)
  else if tag = 1 then (if num_args ≠ 4 then none else some piecewise_box_interaction_fn)
  else if tag = 2 then (if num_args ≠ 6 then none else some cross_interaction_fn)
  else if tag = 3 then (if num_args ≠ 8 then none else some cross_hash_interaction_fn)
  else if tag = 4 then (if num_args ≠ 0 then none else some moore_interaction_fn)
  else if tag = 5 then (if num_args ≠ 2 then none else some (gaussian_interaction_fn expf))
  else if tag = 6 then (if num_args ≠ 0 then none else some four_interaction_fn)
  else none

/-- Embeds `get_regeneration_fn(type, args, num_args)`.  Tags: ZERO = 0,
CONSTANT = 1, CUSTOM = 2. -/
def get_regeneration_fn (tag : ℕ) (num_args : ℕ) :
    Option (position → ℕ → List ℚ → Option ℚ) :=
  if tag = 0 then (if num_args ≠ 0 then none else some zero_regeneration_fn)
  else if tag = 1 then (if num_args = 0 then none else some constant_regeneration_fn)
  else if tag = 2 then (if num_args = 0 then none else some custom_regeneration_fn)
  else none

/-- Embeds `is_constant(interaction_function)`: the source compares the
function pointer against `zero_interaction_fn`; here the comparison is by
registry tag. -/
def is_constant_interaction (tag : ℕ) : Bool := tag == 0

/-- Embeds `is_stationary(interaction_function)`: the source compares the
function pointer against `zero_interaction_fn`, `piecewise_box_interaction_fn`,
`cross_interaction_fn` and `moore_interaction_fn`; here the comparison is by
registry tag (0, 1, 2, 4). -/
def is_stationary_interaction (tag : ℕ) : Bool :=
  tag == 0 || tag == 1 || tag == 2 || tag == 4

/-- The resolved callable for a valid interaction tag (what
`get_interaction_fn` returns once the argument count passes validation). -/
def interaction_fn_for (expf : ℚ → ℚ) (tag : ℕ) : position → position → List ℚ → ℚ :=
  if tag = 0 then zero_interaction_fn
  else if tag = 1 then piecewise_box_interaction_fn
  else if tag = 2 then cross_interaction_fn
  else if tag = 3 then cross_hash_interaction_fn
  else if tag = 4 then moore_interaction_fn
  else if tag = 5 then gaussian_interaction_fn expf
  else four_interaction_fn

/-- The resolved callable for a valid intensity tag. -/
def intensity_fn_for (tag : ℕ) : position → List ℚ → ℚ :=
  if tag = 0 then zero_intensity_fn
  else if tag = 1 then constant_intensity_fn
  else radial_hash_intensity_fn

/-- The resolved callable for a valid regeneration tag. -/
def regeneration_fn_for (tag : ℕ) : position → ℕ → List ℚ → Option ℚ :=
  if tag = 0 then zero_regeneration_fn
  else if tag = 1 then constant_regeneration_fn
  else custom_regeneration_fn

/-- Argument-count validation for intensity tags, as the claim states it. -/
def intensity_args_ok (tag : ℕ) (num_args : ℕ) : Prop :=
  (tag = 0 ∧ num_args = 0) ∨ (tag = 1 ∧ 1 ≤ num_args) ∨ (tag = 2 ∧ num_args = 4)

/-- Argument-count validation for interaction tags, as the claim states it. -/
def interaction_args_ok (tag : ℕ) (num_args : ℕ) : Prop :=
  (tag = 0 ∧ num_args = 0) ∨ (tag = 1 ∧ num_args = 4) ∨ (tag = 2 ∧ num_args = 6) ∨
  (tag = 3 ∧ num_args = 8) ∨ (tag = 4 ∧ num_args = 0) ∨ (tag = 5 ∧ num_args = 2) ∨
  (tag = 6 ∧ num_args = 0)

/-- Argument-count validation for regeneration tags, as the claim states it. -/
def regeneration_args_ok (tag : ℕ) (num_args : ℕ) : Prop :=
  (tag = 0 ∧ num_args = 0) ∨ (tag = 1 ∧ 1 ≤ num_args) ∨ (tag = 2 ∧ 1 ≤ num_args)

/-- A binary interaction function depends only on the displacement between
its two positions (the spec's reading of "stationary"). -/
def shift_invariant (f : position → position → List ℚ → ℚ) : Prop :=
  ∀ (p1 p2 d : position) (args : List ℚ), f (p1 + d) (p2 + d) args = f p1 p2 args

/-- A concrete opaque stand-in for `exp` used in closed statements. -/
def expf_id : ℚ → ℚ := fun q => q

theorem shift_invariant_zero : shift_invariant zero_interaction_fn := by
  intro p1 p2 d args; rfl

theorem shift_invariant_piecewise_box : shift_invariant piecewise_box_interaction_fn := by
  intro p1 p2 d args
  simp only [piecewise_box_interaction_fn, position.sub_shift]

theorem shift_invariant_cross : shift_invariant cross_interaction_fn := by
  intro p1 p2 d args
  simp only [cross_interaction_fn, position.sub_shift]

theorem shift_invariant_moore : shift_invariant moore_interaction_fn := by
  intro p1 p2 d args
  simp only [moore_interaction_fn, position.sub_shift]

theorem shift_invariant_four : shift_invariant four_interaction_fn := by
  intro p1 p2 d args
  simp only [four_interaction_fn, position.sub_shift]

theorem shift_invariant_gaussian (expf : ℚ → ℚ) :
    shift_invariant (gaussian_interaction_fn expf) := by
  intro p1 p2 d args
  simp only [gaussian_interaction_fn, position.sub_shift]

theorem interaction_fn_for_six (expf : ℚ → ℚ) :
    interaction_fn_for expf 6 = four_interaction_fn := by
  norm_num [interaction_fn_for]

theorem interaction_fn_for_five (expf : ℚ → ℚ) :
    interaction_fn_for expf 5 = gaussian_interaction_fn expf := by
  norm_num [interaction_fn_for]

/-- C5 (counterexample): the claim "`is_stationary(f)` returns true iff `f`
depends only on the displacement between its two positions" is false at the
built-in FOUR interaction function (tag 6): FOUR depends only on the
displacement, yet `is_stationary` returns false for it. -/
theorem is_stationary_iff_shift_invariant_cex :
    ¬ (is_stationary_interaction 6 = true ↔
        shift_invariant (interaction_fn_for expf_id 6)) := by
  intro h
  have h4 : shift_invariant (interaction_fn_for expf_id 6) := by
    rw [interaction_fn_for_six]
    exact shift_invariant_four
  have := h.mpr h4
  simp [is_stationary_interaction] at this

/-- C5 (amended): over the built-in interaction set (tags 0–6),
`is_stationary` returns true exactly for ZERO (0), PIECEWISE_BOX (1),
CROSS (2) and MOORE (4); every function it marks stationary depends only on
the displacement between its two positions; but the converse fails: FOUR (6)
and GAUSSIAN (5) also depend only on the displacement while `is_stationary`
returns false for them. -/
theorem is_stationary_sound_but_incomplete (expf : ℚ → ℚ) (tag : ℕ) :
    (is_stationary_interaction tag = true ↔ (tag = 0 ∨ tag = 1 ∨ tag = 2 ∨ tag = 4))
    ∧ (is_stationary_interaction tag = true →
        shift_invariant (interaction_fn_for expf tag))
    ∧ ((tag = 5 ∨ tag = 6) →
        (shift_invariant (interaction_fn_for expf tag)
          ∧ is_stationary_interaction tag = false)) := by
  refine ⟨?_, ?_, ?_⟩
  · simp only [is_stationary_interaction, Bool.or_eq_true, beq_iff_eq]
    tauto
  · intro h
    simp only [is_stationary_interaction, Bool.or_eq_true, beq_iff_eq] at h
    rcases h with ((h | h) | h) | h <;> subst h
    · rw [show interaction_fn_for expf 0 = zero_interaction_fn by norm_num [interaction_fn_for]]
      exact shift_invariant_zero
    · rw [show interaction_fn_for expf 1 = piecewise_box_interaction_fn by
        norm_num [interaction_fn_for]]
      exact shift_invariant_piecewise_box
    · rw [show interaction_fn_for expf 2 = cross_interaction_fn by
        norm_num [interaction_fn_for]]
      exact shift_invariant_cross
    · rw [show interaction_fn_for expf 4 = moore_interaction_fn by
        norm_num [interaction_fn_for]]
      exact shift_invariant_moore
  · rintro (h | h) <;> subst h
    · rw [interaction_fn_for_five]
      exact ⟨shift_invariant_gaussian expf, by simp [is_stationary_interaction]⟩
    · rw [interaction_fn_for_six]
      exact ⟨shift_invariant_four, by simp [is_stationary_interaction]⟩

/-- Witness for the amended C5 theorem at the concrete tag 2 (CROSS). -/
theorem is_stationary_sound_but_incomplete_w :
    shift_invariant (interaction_fn_for expf_id 2) :=
  (is_stationary_sound_but_incomplete expf_id 2).2.1 (by decide)

/-- C4: the claim says `custom_regeneration_fn` bounds-checks the tick
against the length of its args array and returns 0 outside the defined
range; the code performs the raw read `args[time]` with no bounds check, so
with a single argument and tick 3 the read is out of the array's defined
range (undefined in C, `none` in this embedding) rather than 0. -/
theorem custom_regeneration_unchecked_read :
    custom_regeneration_fn ⟨0, 0⟩ 3 [(2 : ℚ)] = none := rfl

/-- C6: for every tag value and argument count, each of the three registry
dispatchers returns NULL exactly when the tag is unknown or the argument
count fails that tag's validation (ZERO/MOORE/FOUR: exactly 0;
RADIAL_HASH/PIECEWISE_BOX: exactly 4; CROSS: exactly 6; CROSS_HASH: exactly
8; GAUSSIAN: exactly 2; CONSTANT/CUSTOM: at least 1), and otherwise returns
the unique callable for that tag. -/
theorem get_fn_validation (expf : ℚ → ℚ) (tag num_args : ℕ) :
    (get_intensity_fn tag num_args = none ↔ ¬ intensity_args_ok tag num_args)
    ∧ (get_interaction_fn expf tag num_args = none ↔ ¬ interaction_args_ok tag num_args)
    ∧ (get_regeneration_fn tag num_args = none ↔ ¬ regeneration_args_ok tag num_args)
    ∧ (intensity_args_ok tag num_args →
        get_intensity_fn tag num_args = some (intensity_fn_for tag))
    ∧ (interaction_args_ok tag num_args →
        get_interaction_fn expf tag num_args = some (interaction_fn_for expf tag))
    ∧ (regeneration_args_ok tag num_args →
        get_regeneration_fn tag num_args = some (regeneration_fn_for tag)) := by
  refine ⟨?_, ?_, ?_, ?_, ?_, ?_⟩
  · unfold get_intensity_fn intensity_args_ok
    split_ifs <;> simp_all
  · unfold get_interaction_fn interaction_args_ok
    split_ifs <;> simp_all
  · unfold get_regeneration_fn regeneration_args_ok
    split_ifs <;> simp_all
  · unfold get_intensity_fn intensity_args_ok intensity_fn_for
    split_ifs <;> simp_all
  · unfold get_interaction_fn interaction_args_ok interaction_fn_for
    split_ifs <;> simp_all
  · unfold get_regeneration_fn regeneration_args_ok regeneration_fn_for
    split_ifs <;> simp_all

/-- Witness for the C6 theorem at the concrete input tag = 1 (CONSTANT),
2 arguments. -/
theorem get_fn_validation_w :
    get_intensity_fn 1 2 = some constant_intensity_fn := by
  have h := (get_fn_validation expf_id 1 2).2.2.2.1
  have : intensity_args_ok 1 2 := by unfold intensity_args_ok; omega
  have h2 := h this
  rw [h2]
  unfold intensity_fn_for
  norm_num

/- ------------------------------------------------------------- -/
/- gibbs_field_cache (src/jbw/gibbs_field.h, lines 41 to 208)     -/
/- ------------------------------------------------------------- -/

/-- Embeds the `energy_function<interaction_function>` record held in
`item_types[i].interaction_fns[j]`: the function (by registry tag) together
with its argument array. -/
structure interaction_fn_model where
  tag : ℕ
  args : List ℚ
deriving DecidableEq, Repr

instance : Inhabited interaction_fn_model := ⟨⟨0, []⟩⟩

/-- Embeds the part of the `ItemType` record that `gibbs_field_cache`
reads for pairwise interactions: the per-other-type interaction functions. -/
structure item_type_model where
  interaction_fns : List interaction_fn_model
deriving DecidableEq, Repr

instance : Inhabited item_type_model := ⟨⟨[]⟩⟩

/-- Embeds the precomputed `(4n × 4n)` interaction table built by
`gibbs_field_cache::init_helper` for one (stationary, non-constant)
interaction function: row-major (`x * four_n + y`), entry `(x, y)` holds
`interaction(position(two_n, two_n), position(x, y), args)`, except the
centre `(two_n, two_n)`, which is set to 0. -/
def interaction_table (expf : ℚ → ℚ) (f : interaction_fn_model) (n : ℕ) : List ℚ :=
  (List.range (4 * n)).flatMap (fun x =>
    (List.range (4 * n)).map (fun y =>
      if x = 2 * n ∧ y = 2 * n then 0
      else interaction_fn_for expf f.tag ⟨(2 * n : ℤ), (2 * n : ℤ)⟩ ⟨(x : ℤ), (y : ℤ)⟩ f.args))

/-- The interaction-function record the cache resolves for a pair of item
types: `item_types[first_item_type].interaction_fns[second_item_type]`. -/
def resolved_interaction_fn (item_types : List item_type_model) (t1 t2 : ℕ) :
    interaction_fn_model :=
  (item_types.getD t1 default).interaction_fns.getD t2 default

/-- Embeds `gibbs_field_cache::interaction(first_position, second_position,
first_item_type, second_item_type)`: constant or non-stationary functions are
evaluated directly (with the equal-position early return of 0); stationary
non-constant functions go through the precomputed table at the displacement
`first_position - second_position + (two_n, two_n)` (written out componentwise
here), with the debug-build bounds check returning 0 outside the table. -/
def cache_interaction (expf : ℚ → ℚ) (item_types : List item_type_model) (n : ℕ)
    (t1 t2 : ℕ) (p1 p2 : position) : ℚ :=
  if is_constant_interaction (resolved_interaction_fn item_types t1 t2).tag
      || !(is_stationary_interaction (resolved_interaction_fn item_types t1 t2).tag) then
    if p1 = p2 then 0
    else interaction_fn_for expf (resolved_interaction_fn item_types t1 t2).tag p1 p2
      (resolved_interaction_fn item_types t1 t2).args
  else
    if (p1 - p2).x + ((2 * n : ℕ) : ℤ) < 0
        ∨ ((4 * n : ℕ) : ℤ) ≤ (p1 - p2).x + ((2 * n : ℕ) : ℤ)
        ∨ (p1 - p2).y + ((2 * n : ℕ) : ℤ) < 0
        ∨ ((4 * n : ℕ) : ℤ) ≤ (p1 - p2).y + ((2 * n : ℕ) : ℤ) then 0
    else (interaction_table expf (resolved_interaction_fn item_types t1 t2) n).getD
      (((p1 - p2).x + ((2 * n : ℕ) : ℤ)) * ((4 * n : ℕ) : ℤ)
        + ((p1 - p2).y + ((2 * n : ℕ) : ℤ))).toNat 0

theorem getD_flatMap_range_map (g : ℕ → ℕ → ℚ) (R C x y : ℕ) (hx : x < R) (hy : y < C) :
    ((List.range R).flatMap (fun a => (List.range C).map (g a))).getD (x * C + y) 0
      = g x y := by
  induction R generalizing x with
  | zero => omega
  | succ R ih =>
    rw [List.range_succ, List.flatMap_append]
    have hlen : ((List.range R).flatMap fun a => (List.range C).map (g a)).length
        = R * C := by
      simp [List.length_flatMap, Function.comp_def, List.map_const]
    by_cases hxR : x < R
    · have hidx : x * C + y < R * C := by
        calc x * C + y < x * C + C := by omega
        _ = (x + 1) * C := by ring
        _ ≤ R * C := Nat.mul_le_mul_right C (by omega)
      rw [List.getD_append _ _ 0 _ (by omega)]
      exact ih x hxR
    · have hx' : x = R := by omega
      subst hx'
      rw [List.getD_append_right _ _ 0 _ (by omega)]
      have : x * C + y - ((List.range x).flatMap
          fun a => (List.range C).map (g a)).length = y := by
        rw [hlen]; omega
      rw [this]
      simp only [List.flatMap_cons, List.flatMap_nil, List.append_nil]
      rw [List.getD_eq_getElem?_getD, List.getElem?_map, List.getElem?_range hy]
      rfl

theorem interaction_table_entry (expf : ℚ → ℚ) (f : interaction_fn_model) (n x y : ℕ)
    (hx : x < 4 * n) (hy : y < 4 * n) :
    (interaction_table expf f n).getD (x * (4 * n) + y) 0
      = if x = 2 * n ∧ y = 2 * n then 0
        else interaction_fn_for expf f.tag ⟨(2 * n : ℤ), (2 * n : ℤ)⟩
          ⟨(x : ℤ), (y : ℤ)⟩ f.args :=
  getD_flatMap_range_map _ (4 * n) (4 * n) x y hx hy

theorem position.sub_x (a b : position) : (a - b).x = a.x - b.x := rfl

theorem position.sub_y (a b : position) : (a - b).y = a.y - b.y := rfl

theorem position.add_x (a b : position) : (a + b).x = a.x + b.x := rfl

theorem position.add_y (a b : position) : (a + b).y = a.y + b.y := rfl

theorem position.ext_xy (a b : position) (h1 : a.x = b.x) (h2 : a.y = b.y) : a = b := by
  cases a; cases b; simp_all

theorem toNat_mul_add (a b : ℤ) (C : ℕ) (ha : 0 ≤ a) (hb : 0 ≤ b) :
    (a * (C : ℤ) + b).toNat = a.toNat * C + b.toNat := by
  lift a to ℕ using ha with A
  lift b to ℕ using hb with B
  have h3 : ((A : ℤ) * C + (B : ℤ)) = ((A * C + B : ℕ) : ℤ) := by push_cast; ring
  rw [h3, Int.toNat_natCast, Int.toNat_natCast, Int.toNat_natCast]

/-- Each of the three stationary non-constant built-in interaction
functions (PIECEWISE_BOX, CROSS, MOORE) depends only on the displacement
between its positions, and symmetrically so: any two position pairs whose
displacements are negations of one another give the same value. -/
theorem interaction_eval_neg_diff (expf : ℚ → ℚ) (tag : ℕ)
    (htag : tag = 1 ∨ tag = 2 ∨ tag = 4)
    (p1 p2 q1 q2 : position) (args : List ℚ) (h : p1 - p2 = q2 - q1) :
    interaction_fn_for expf tag p1 p2 args = interaction_fn_for expf tag q1 q2 args := by
  have hx : (p1 - p2).x = -((q1 - q2).x) := by
    rw [h, position.sub_x, position.sub_x]; ring
  have hy : (p1 - p2).y = -((q1 - q2).y) := by
    rw [h, position.sub_y, position.sub_y]; ring
  rcases htag with h1 | h1 | h1 <;> subst h1
  · rw [show interaction_fn_for expf 1 = piecewise_box_interaction_fn by
      norm_num [interaction_fn_for]]
    have hsq : (p1 - p2).squared_length = (q1 - q2).squared_length := by
      simp only [position.squared_length, hx, hy]; ring
    simp only [piecewise_box_interaction_fn, hsq]
  · rw [show interaction_fn_for expf 2 = cross_interaction_fn by
      norm_num [interaction_fn_for]]
    simp only [cross_interaction_fn, hx, hy, Int.natAbs_neg, neg_eq_zero]
  · rw [show interaction_fn_for expf 4 = moore_interaction_fn by
      norm_num [interaction_fn_for]]
    simp only [moore_interaction_fn, hx, hy, Int.natAbs_neg]

/-- C7: for every position `p` and every pair of item types,
`gibbs_field_cache::interaction(p, p, t1, t2)` returns 0 on every code path:
the direct-evaluation branch (constant or non-stationary function) early
returns 0 on equal positions, and for a cached stationary function the
lookup lands on the table's centre entry `(two_n, two_n)`, which
`init_helper` sets to 0 (the centre entry itself is also shown to be 0).
Hence the sampler's energy sums never receive a contribution of an item
interacting with its own cell, matching the `q ≠ pos` restriction in the
spec's formula. -/
theorem cache_interaction_self_zero (expf : ℚ → ℚ) (item_types : List item_type_model)
    (n : ℕ) (t1 t2 : ℕ) (p : position) :
    cache_interaction expf item_types n t1 t2 p p = 0
    ∧ (interaction_table expf (resolved_interaction_fn item_types t1 t2) n).getD
        ((2 * n) * (4 * n) + 2 * n) 0 = 0 := by
  have hc2 : (interaction_table expf (resolved_interaction_fn item_types t1 t2) n).getD
      ((2 * n) * (4 * n) + 2 * n) 0 = 0 := by
    by_cases hn : n = 0
    · subst hn; simp [interaction_table]
    · rw [interaction_table_entry _ _ _ _ _ (by omega) (by omega)]
      simp
  refine ⟨?_, hc2⟩
  unfold cache_interaction
  by_cases hb : (is_constant_interaction (resolved_interaction_fn item_types t1 t2).tag
      || !(is_stationary_interaction (resolved_interaction_fn item_types t1 t2).tag)) = true
  · rw [if_pos hb, if_pos rfl]
  · rw [if_neg hb]
    have hx : (p - p).x = 0 := by rw [position.sub_x]; ring
    have hy : (p - p).y = 0 := by rw [position.sub_y]; ring
    rw [hx, hy]
    by_cases hn : n = 0
    · subst hn
      rw [if_pos (by norm_num)]
    · rw [if_neg (by push_cast; omega)]
      have hidx : ((0 + ((2 * n : ℕ) : ℤ)) * ((4 * n : ℕ) : ℤ) + (0 + ((2 * n : ℕ) : ℤ))).toNat
          = (2 * n) * (4 * n) + 2 * n := by
        rw [toNat_mul_add _ _ (4 * n) (by positivity) (by positivity)]
        have h2 : ((0 : ℤ) + ((2 * n : ℕ) : ℤ)).toNat = 2 * n := by omega
        rw [h2]
      rw [hidx]
      exact hc2

/-- C3 (counterexample): the claim asserts that for a stationary
non-constant interaction function the table entry for displacement `d`,
stored at index `(d + (2n, 2n)).x * 4n + (d + (2n, 2n)).y`, equals the
interaction function evaluated at positions with that displacement.  At
displacement `d = 0` with the MOORE function (tag 4, stationary and not
constant) and `n = 1`, the entry at index `2*4 + 2 = 10` is forced to 0 by
`init_helper`, while MOORE evaluated at two equal positions (displacement
zero) returns 1. -/
theorem stationary_interaction_table_cex :
    is_stationary_interaction 4 = true
    ∧ is_constant_interaction 4 = false
    ∧ (interaction_table expf_id ⟨4, []⟩ 1).getD 10 0 = 0
    ∧ moore_interaction_fn ⟨0, 0⟩ ⟨0, 0⟩ [] = 1 := by
  refine ⟨rfl, rfl, ?_, ?_⟩
  · rw [show (10 : ℕ) = 2 * (4 * 1) + 2 from rfl,
      interaction_table_entry expf_id ⟨4, []⟩ 1 2 2 (by omega) (by omega)]
    norm_num
  · rfl

/-- C3 (amended): for every pair of item types whose interaction function is
stationary and not constant, every entry of the precomputed `(4n × 4n)`
table at the index `(d + (2n, 2n)).x * 4n + (d + (2n, 2n)).y` of a NONZERO
in-bounds displacement `d` equals the interaction function evaluated at any
two positions with that displacement (the entry for the zero displacement is
instead set to 0, as established separately); and for every two positions
`p1, p2` with nonzero displacement whose shifted displacement lies inside
the table bounds, `gibbs_field_cache::interaction(p1, p2, t1, t2)` returns
exactly the value of the underlying interaction function on `(p1, p2)`. -/
theorem stationary_interaction_table_refines (expf : ℚ → ℚ)
    (item_types : List item_type_model) (n : ℕ) (t1 t2 : ℕ)
    (hst : is_stationary_interaction (resolved_interaction_fn item_types t1 t2).tag = true)
    (hnc : is_constant_interaction (resolved_interaction_fn item_types t1 t2).tag = false) :
    (∀ (d : position) (p1 p2 : position), p1 - p2 = d → d ≠ ⟨0, 0⟩ →
      0 ≤ d.x + ((2 * n : ℕ) : ℤ) → d.x + ((2 * n : ℕ) : ℤ) < ((4 * n : ℕ) : ℤ) →
      0 ≤ d.y + ((2 * n : ℕ) : ℤ) → d.y + ((2 * n : ℕ) : ℤ) < ((4 * n : ℕ) : ℤ) →
      (interaction_table expf (resolved_interaction_fn item_types t1 t2) n).getD
        ((d.x + ((2 * n : ℕ) : ℤ)) * ((4 * n : ℕ) : ℤ)
          + (d.y + ((2 * n : ℕ) : ℤ))).toNat 0
        = interaction_fn_for expf (resolved_interaction_fn item_types t1 t2).tag p1 p2
            (resolved_interaction_fn item_types t1 t2).args)
    ∧ (∀ (p1 p2 : position), p1 ≠ p2 →
      0 ≤ (p1 - p2).x + ((2 * n : ℕ) : ℤ) →
      (p1 - p2).x + ((2 * n : ℕ) : ℤ) < ((4 * n : ℕ) : ℤ) →
      0 ≤ (p1 - p2).y + ((2 * n : ℕ) : ℤ) →
      (p1 - p2).y + ((2 * n : ℕ) : ℤ) < ((4 * n : ℕ) : ℤ) →
      cache_interaction expf item_types n t1 t2 p1 p2
        = interaction_fn_for expf (resolved_interaction_fn item_types t1 t2).tag p1 p2
            (resolved_interaction_fn item_types t1 t2).args) := by
  have htag : (resolved_interaction_fn item_types t1 t2).tag = 1
      ∨ (resolved_interaction_fn item_types t1 t2).tag = 2
      ∨ (resolved_interaction_fn item_types t1 t2).tag = 4 := by
    simp only [is_stationary_interaction, Bool.or_eq_true, beq_iff_eq] at hst
    simp only [is_constant_interaction, beq_eq_false_iff_ne] at hnc
    omega
  have part1 : ∀ (d : position) (p1 p2 : position), p1 - p2 = d → d ≠ ⟨0, 0⟩ →
      0 ≤ d.x + ((2 * n : ℕ) : ℤ) → d.x + ((2 * n : ℕ) : ℤ) < ((4 * n : ℕ) : ℤ) →
      0 ≤ d.y + ((2 * n : ℕ) : ℤ) → d.y + ((2 * n : ℕ) : ℤ) < ((4 * n : ℕ) : ℤ) →
      (interaction_table expf (resolved_interaction_fn item_types t1 t2) n).getD
        ((d.x + ((2 * n : ℕ) : ℤ)) * ((4 * n : ℕ) : ℤ)
          + (d.y + ((2 * n : ℕ) : ℤ))).toNat 0
        = interaction_fn_for expf (resolved_interaction_fn item_types t1 t2).tag p1 p2
            (resolved_interaction_fn item_types t1 t2).args := by
    intro d p1 p2 hd hd0 hx0 hx1 hy0 hy1
    rw [toNat_mul_add _ _ (4 * n) hx0 hy0]
    rw [interaction_table_entry _ _ _ _ _ (by omega) (by omega)]
    have e1 : p1.x - p2.x = d.x := by rw [← hd, position.sub_x]
    have e2 : p1.y - p2.y = d.y := by rw [← hd, position.sub_y]
    rw [if_neg (by
      intro hcen
      apply hd0
      refine position.ext_xy d ⟨0, 0⟩ ?_ ?_ <;> simp <;> omega)]
    apply interaction_eval_neg_diff expf _ htag
    refine position.ext_xy _ _ ?_ ?_
    · rw [position.sub_x, position.sub_x]
      simp only
      omega
    · rw [position.sub_y, position.sub_y]
      simp only
      omega
  refine ⟨part1, ?_⟩
  intro p1 p2 hne hx0 hx1 hy0 hy1
  unfold cache_interaction
  rw [if_neg (by simp [hst, hnc])]
  rw [if_neg (by omega)]
  have hdne : p1 - p2 ≠ (⟨0, 0⟩ : position) := by
    intro h0
    apply hne
    have e1 := congrArg position.x h0
    have e2 := congrArg position.y h0
    rw [position.sub_x] at e1
    rw [position.sub_y] at e2
    simp only at e1 e2
    refine position.ext_xy p1 p2 (by omega) (by omega)
  exact part1 (p1 - p2) p1 p2 rfl hdne hx0 hx1 hy0 hy1

/-- Witness for the amended C3 theorem: one item type whose self-interaction
is PIECEWISE_BOX(10, 20, 5, 7); with `n = 1`, positions `(0,0)` and `(1,0)`
have displacement `(-1, 0)`, in bounds after the `(2, 2)` shift, and the
cached read equals the direct evaluation. -/
theorem stationary_interaction_table_refines_w :
    cache_interaction expf_id [⟨[⟨1, [10, 20, 5, 7]⟩]⟩] 1 0 0 ⟨0, 0⟩ ⟨1, 0⟩
      = interaction_fn_for expf_id 1 ⟨0, 0⟩ ⟨1, 0⟩ [10, 20, 5, 7] := by
  have h := (stationary_interaction_table_refines expf_id
    [⟨[⟨1, [10, 20, 5, 7]⟩]⟩] 1 0 0 (by rfl) (by rfl)).2
    ⟨0, 0⟩ ⟨1, 0⟩ (by decide) (by decide) (by decide) (by decide) (by decide)
  simpa [resolved_interaction_fn] using h

/- ------------------------------------------------------------- -/
/- gibbs_field::sample, MH move (src/jbw/gibbs_field.h 284-421)   -/
/- ------------------------------------------------------------- -/

/-- Embeds the item instance record added and removed by the sampler
(`{ item_type, location, creation_tick, deletion_tick }`). -/
structure item where
  item_type : ℕ
  location : position
  creation_tick : ℕ
  deletion_tick : ℕ
deriving DecidableEq, Repr

instance : Inhabited item := ⟨⟨0, ⟨0, 0⟩, 0, 0⟩⟩

/-- Embeds `patch_neighborhood`: the four quadrant neighborhoods, each the
list of the (up to four) neighbouring patches, a patch being represented by
its items list.  `top_left_neighborhood[0]` is the patch being sampled. -/
structure patch_neighborhood_model where
  bottom_left : List (List item)
  top_left : List (List item)
  bottom_right : List (List item)
  top_right : List (List item)

/-- The items of the patch being sampled, `neighborhood.top_left_neighborhood[0]->items`. -/
def current_items (nbhd : patch_neighborhood_model) : List item :=
  nbhd.top_left.headD []

/-- Embeds `patch_positions[i] * n` (position scaled by the unsigned patch size). -/
def position.smul (p : position) (k : ℕ) : position := ⟨p.x * k, p.y * k⟩

/-- Embeds the quadrant selection of `gibbs_field::sample`: the proposal
position relative to the patch offset picks one of the four quadrant
neighborhoods (`pos.x - offset.x < n / 2`, then the same on y). -/
def select_quadrant (nbhd : patch_neighborhood_model) (offset : position)
    (pos : position) (n : ℕ) : List (List item) :=
  if pos.x - offset.x < ((n / 2 : ℕ) : ℤ) then
    (if pos.y - offset.y < ((n / 2 : ℕ) : ℤ) then nbhd.bottom_left else nbhd.top_left)
  else
    (if pos.y - offset.y < ((n / 2 : ℕ) : ℤ) then nbhd.bottom_right else nbhd.top_right)

/-- All items of a quadrant neighborhood, in iteration order. -/
def quadrant_items (nbhd : patch_neighborhood_model) (offset : position)
    (pos : position) (n : ℕ) : List item :=
  (select_quadrant nbhd offset pos n).flatMap (fun p => p)

/-- Embeds the inner loop of the birth proposal over one neighbouring
patch's items: interaction terms accumulate in code order into
`log_acceptance_probability`, and the loop stops with `none` (the proposed
cell is occupied) as soon as an item at the proposed cell is found. -/
def birth_scan_items (inter : position → position → ℕ → ℕ → ℚ)
    (new_pos : position) (t : ℕ) : List item → ℚ → Option ℚ
  | [], acc => some acc
  | it :: rest, acc =>
    if it.location = new_pos then none
    else birth_scan_items inter new_pos t rest
      (acc + inter new_pos it.location t it.item_type
           + inter it.location new_pos it.item_type t)

/-- Embeds the outer loop of the birth proposal over the quadrant
neighborhood's patches (the `new_position_occupied` early exit propagates). -/
def birth_scan (inter : position → position → ℕ → ℕ → ℚ)
    (new_pos : position) (t : ℕ) : List (List item) → ℚ → Option ℚ
  | [], acc => some acc
  | p :: ps, acc =>
    match birth_scan_items inter new_pos t p acc with
    | none => none
    | some acc2 => birth_scan inter new_pos t ps acc2

/-- Embeds the inner loop of the death proposal: each neighborhood item
SUBTRACTS its two interaction terms from the accumulator. -/
def death_scan_items (inter : position → position → ℕ → ℕ → ℚ)
    (old_pos : position) (t : ℕ) : List item → ℚ → ℚ
  | [], acc => acc
  | it :: rest, acc =>
    death_scan_items inter old_pos t rest
      (acc - inter old_pos it.location t it.item_type
           - inter it.location old_pos it.item_type t)

/-- Embeds the outer loop of the death proposal over the quadrant
neighborhood's patches. -/
def death_scan (inter : position → position → ℕ → ℕ → ℚ)
    (old_pos : position) (t : ℕ) : List (List item) → ℚ → ℚ
  | [], acc => acc
  | p :: ps, acc => death_scan inter old_pos t ps (death_scan_items inter old_pos t p acc)

/-- Embeds one Metropolis–Hastings update of `gibbs_field::sample` for one
patch, returning the updated items list of the current patch
(`current.items`).  The abstract parameters mirror the sampler's
environment: `inter` is `cache.interaction`, `intensity` is
`cache.intensity`, `log_fn k` is `log_cache::get(k)` (the natural log of
`k`), `log_itc` is `LOG_ITEM_TYPE_COUNT` and `log_n2` is `LOG_N_SQUARED`
(set to `2 * log n` by the constructor).  `r0 r1 r2 r3` are the successive
raw `rng()` draws in code order and `log_random` is
`log((float) rng() / rng.max())`.  The removal `current.items.remove(
item_index)` lives in the core array library, which is not among the
provided sources; modelled from the spec ("remove instance"), as the
order-preserving erasure at that index — the theorems consume it only up to
permutation. -/
def mh_patch_step (inter : position → position → ℕ → ℕ → ℚ)
    (intensity : position → ℕ → ℚ) (log_fn : ℕ → ℚ) (log_itc log_n2 : ℚ)
    (item_type_count n : ℕ) (patch_position : position)
    (nbhd : patch_neighborhood_model)
    (r0 r1 r2 r3 : ℕ) (log_random : ℚ) : List item :=
  let offset := patch_position.smul n
  if r0 % 2 = 0 then
    let t := r1 % item_type_count
    let new_position := offset + ⟨((r2 % n : ℕ) : ℤ), ((r3 % n : ℕ) : ℤ)⟩
    match birth_scan inter new_position t (select_quadrant nbhd offset new_position n) 0 with
    | none => current_items nbhd
    | some s =>
      let l := s + intensity new_position t
                 + (- log_fn ((current_items nbhd).length + 1))
                 - (- log_itc - log_n2)
      if log_random < l then current_items nbhd ++ [⟨t, new_position, 0, 0⟩]
      else current_items nbhd
  else if 0 < (current_items nbhd).length then
    let item_index := r1 % (current_items nbhd).length
    let old := (current_items nbhd).getD item_index default
    let s := death_scan inter old.location old.item_type
      (select_quadrant nbhd offset old.location n) 0
    let l := s - intensity old.location old.item_type
               + (- log_itc - log_n2)
               - (- log_fn (current_items nbhd).length)
    if log_random < l then (current_items nbhd).eraseIdx item_index
    else current_items nbhd
  else current_items nbhd

/-- The birth log-acceptance exactly as the claim states it: the sum over
neighborhood items of both interaction directions, plus the intensity at
the proposed cell, plus the log inverse-proposal `-log(|items| + 1)`, minus
the log forward-proposal `-log(item_type_count) - 2 log n`. -/
def birth_log_acceptance_spec (inter : position → position → ℕ → ℕ → ℚ)
    (intensity : position → ℕ → ℚ) (log_fn : ℕ → ℚ) (log_itc log_n : ℚ)
    (t : ℕ) (new_pos : position) (neigh : List item) (cur_len : ℕ) : ℚ :=
  (neigh.map (fun it => inter new_pos it.location t it.item_type
    + inter it.location new_pos it.item_type t)).sum
  + intensity new_pos t
  + (- log_fn (cur_len + 1))
  - (- log_itc - 2 * log_n)

/-- The death log-acceptance exactly as the claim states it: the negation
of the chosen item's energy (its intensity plus its pairwise interactions
with all neighborhood items), plus the log forward-proposal
`-log(item_type_count) - 2 log n`, minus the log inverse-proposal
`-log(|items|)`. -/
def death_log_acceptance_spec (inter : position → position → ℕ → ℕ → ℚ)
    (intensity : position → ℕ → ℚ) (log_fn : ℕ → ℚ) (log_itc log_n : ℚ)
    (t : ℕ) (old_pos : position) (neigh : List item) (cur_len : ℕ) : ℚ :=
  - (intensity old_pos t
      + (neigh.map (fun it => inter old_pos it.location t it.item_type
          + inter it.location old_pos it.item_type t)).sum)
  + (- log_itc - 2 * log_n)
  - (- log_fn cur_len)

theorem birth_scan_items_none_iff (inter : position → position → ℕ → ℕ → ℚ)
    (new_pos : position) (t : ℕ) (l : List item) (acc : ℚ) :
    birth_scan_items inter new_pos t l acc = none ↔ ∃ it ∈ l, it.location = new_pos := by
  induction l generalizing acc with
  | nil => simp [birth_scan_items]
  | cons a rest ih =>
    by_cases ha : a.location = new_pos
    · simp [birth_scan_items, ha]
    · simp only [birth_scan_items, if_neg ha, ih, List.mem_cons]
      constructor
      · rintro ⟨it, h1, h2⟩; exact ⟨it, Or.inr h1, h2⟩
      · rintro ⟨it, h1 | h1, h2⟩
        · exact absurd (h1 ▸ h2) ha
        · exact ⟨it, h1, h2⟩

theorem birth_scan_items_sum (inter : position → position → ℕ → ℕ → ℚ)
    (new_pos : position) (t : ℕ) (l : List item) (acc : ℚ)
    (h : ∀ it ∈ l, it.location ≠ new_pos) :
    birth_scan_items inter new_pos t l acc
      = some (acc + (l.map (fun it => inter new_pos it.location t it.item_type
          + inter it.location new_pos it.item_type t)).sum) := by
  induction l generalizing acc with
  | nil => simp [birth_scan_items]
  | cons a rest ih =>
    rw [birth_scan_items, if_neg (h a (List.mem_cons_self a rest))]
    rw [ih _ (fun it hit => h it (List.mem_cons_of_mem a hit))]
    congr 1
    simp only [List.map_cons, List.sum_cons]
    ring

theorem birth_scan_none_iff (inter : position → position → ℕ → ℕ → ℚ)
    (new_pos : position) (t : ℕ) (L : List (List item)) (acc : ℚ) :
    birth_scan inter new_pos t L acc = none
      ↔ ∃ it ∈ L.flatMap (fun p => p), it.location = new_pos := by
  induction L generalizing acc with
  | nil => simp [birth_scan]
  | cons p ps ih =>
    by_cases hp : ∃ it ∈ p, it.location = new_pos
    · rw [birth_scan, (birth_scan_items_none_iff inter new_pos t p acc).mpr hp]
      refine iff_of_true rfl ?_
      obtain ⟨it, h1, h2⟩ := hp
      refine ⟨it, ?_, h2⟩
      rw [List.flatMap_cons]
      exact List.mem_append_left _ h1
    · push_neg at hp
      rw [birth_scan, birth_scan_items_sum inter new_pos t p acc hp]
      simp only [ih, List.flatMap_cons, List.mem_append]
      constructor
      · rintro ⟨it, h1, h2⟩; exact ⟨it, Or.inr h1, h2⟩
      · rintro ⟨it, h1 | h1, h2⟩
        · exact absurd h2 (hp it h1)
        · exact ⟨it, h1, h2⟩

theorem birth_scan_sum (inter : position → position → ℕ → ℕ → ℚ)
    (new_pos : position) (t : ℕ) (L : List (List item)) (acc : ℚ)
    (h : ∀ it ∈ L.flatMap (fun p => p), it.location ≠ new_pos) :
    birth_scan inter new_pos t L acc
      = some (acc + ((L.flatMap (fun p => p)).map
          (fun it => inter new_pos it.location t it.item_type
            + inter it.location new_pos it.item_type t)).sum) := by
  induction L generalizing acc with
  | nil => simp [birth_scan]
  | cons p ps ih =>
    have hp : ∀ it ∈ p, it.location ≠ new_pos := by
      intro it hit
      exact h it (by simp [List.flatMap_cons, hit])
    rw [birth_scan, birth_scan_items_sum inter new_pos t p acc hp]
    dsimp only
    rw [ih _ (by
      intro it hit
      exact h it (by simp only [List.flatMap_cons, List.mem_append]; exact Or.inr hit))]
    congr 1
    simp only [List.flatMap_cons, List.map_append, List.sum_append]
    ring

theorem death_scan_items_sum (inter : position → position → ℕ → ℕ → ℚ)
    (old_pos : position) (t : ℕ) (l : List item) (acc : ℚ) :
    death_scan_items inter old_pos t l acc
      = acc - (l.map (fun it => inter old_pos it.location t it.item_type
          + inter it.location old_pos it.item_type t)).sum := by
  induction l generalizing acc with
  | nil => simp [death_scan_items]
  | cons a rest ih =>
    rw [death_scan_items, ih]
    simp only [List.map_cons, List.sum_cons]
    ring

theorem death_scan_sum (inter : position → position → ℕ → ℕ → ℚ)
    (old_pos : position) (t : ℕ) (L : List (List item)) (acc : ℚ) :
    death_scan inter old_pos t L acc
      = acc - ((L.flatMap (fun p => p)).map
          (fun it => inter old_pos it.location t it.item_type
            + inter it.location old_pos it.item_type t)).sum := by
  induction L generalizing acc with
  | nil => simp [death_scan]
  | cons p ps ih =>
    rw [death_scan, death_scan_items_sum, ih]
    simp only [List.flatMap_cons, List.map_append, List.sum_append]
    ring

/-- C1: when the coin flip chooses birth (`rng() % 2 == 0`), the proposed
item type is `rng() % item_type_count` (one of the `item_type_count` types)
and the proposed cell is the patch offset plus `(rng() % n, rng() % n)`
(one of the n² cells); if any item of the quadrant neighborhood occupies
the cell the proposal is rejected with no change; otherwise it is accepted
exactly when `log U < L` with `L` the claimed sum (interactions both ways
over the whole neighborhood, plus intensity, plus `-log(|items|+1)`, minus
`-log(item_type_count) - 2 log n`), and on acceptance exactly the one new
item of the proposed type is appended at the proposed cell. -/
theorem mh_birth_move (inter : position → position → ℕ → ℕ → ℚ)
    (intensity : position → ℕ → ℚ) (log_fn : ℕ → ℚ) (log_itc log_n : ℚ)
    (item_type_count n : ℕ) (patch_position : position)
    (nbhd : patch_neighborhood_model) (r0 r1 r2 r3 : ℕ) (log_random : ℚ)
    (h0 : r0 % 2 = 0) (hn : 0 < n) (hitc : 0 < item_type_count) :
    (r1 % item_type_count < item_type_count ∧ r2 % n < n ∧ r3 % n < n)
    ∧ mh_patch_step inter intensity log_fn log_itc (2 * log_n) item_type_count n
        patch_position nbhd r0 r1 r2 r3 log_random
      = (if ∃ it ∈ quadrant_items nbhd (patch_position.smul n)
              (patch_position.smul n + ⟨((r2 % n : ℕ) : ℤ), ((r3 % n : ℕ) : ℤ)⟩) n,
            it.location = patch_position.smul n + ⟨((r2 % n : ℕ) : ℤ), ((r3 % n : ℕ) : ℤ)⟩
        then current_items nbhd
        else if log_random < birth_log_acceptance_spec inter intensity log_fn log_itc log_n
            (r1 % item_type_count)
            (patch_position.smul n + ⟨((r2 % n : ℕ) : ℤ), ((r3 % n : ℕ) : ℤ)⟩)
            (quadrant_items nbhd (patch_position.smul n)
              (patch_position.smul n + ⟨((r2 % n : ℕ) : ℤ), ((r3 % n : ℕ) : ℤ)⟩) n)
            (current_items nbhd).length
        then current_items nbhd
          ++ [⟨r1 % item_type_count,
                patch_position.smul n + ⟨((r2 % n : ℕ) : ℤ), ((r3 % n : ℕ) : ℤ)⟩, 0, 0⟩]
        else current_items nbhd) := by
  refine ⟨⟨Nat.mod_lt _ hitc, Nat.mod_lt _ hn, Nat.mod_lt _ hn⟩, ?_⟩
  simp only [mh_patch_step, if_pos h0]
  by_cases hocc : ∃ it ∈ quadrant_items nbhd (patch_position.smul n)
      (patch_position.smul n + ⟨((r2 % n : ℕ) : ℤ), ((r3 % n : ℕ) : ℤ)⟩) n,
      it.location = patch_position.smul n + ⟨((r2 % n : ℕ) : ℤ), ((r3 % n : ℕ) : ℤ)⟩
  · rw [(birth_scan_none_iff _ _ _ _ _).mpr hocc, if_pos hocc]
  · rw [birth_scan_sum _ _ _ _ _ (by
      intro it hit heq
      exact hocc ⟨it, hit, heq⟩)]
    rw [if_neg hocc]
    simp only [birth_log_acceptance_spec, zero_add]
    have harith : ∀ S I : ℚ,
        S + I + (- log_fn ((current_items nbhd).length + 1)) - (- log_itc - 2 * log_n)
          = S + I + (- log_fn ((current_items nbhd).length + 1)) - (- log_itc - 2 * log_n) :=
      fun S I => rfl
    rfl

/-- Witness for the C1 theorem at a concrete input: one item type, patch
size 1, empty neighborhood, all energies zero, `log U = -1`; the birth
proposal is accepted and the item appended. -/
theorem mh_birth_move_w :
    mh_patch_step (fun _ _ _ _ => 0) (fun _ _ => 0) (fun _ => 0) 0 (2 * 0) 1 1
      ⟨0, 0⟩ ⟨[], [[]], [], []⟩ 0 0 0 0 (-1)
      = [⟨0, ⟨0, 0⟩, 0, 0⟩] := by
  have h := mh_birth_move (fun _ _ _ _ => 0) (fun _ _ => 0) (fun _ => 0) 0 0 1 1
    ⟨0, 0⟩ ⟨[], [[]], [], []⟩ 0 0 0 0 (-1) (by decide) (by decide) (by decide)
  rw [h.2]
  norm_num [quadrant_items, select_quadrant, current_items,
    birth_log_acceptance_spec, position.smul]
  decide

/-- C2: when the coin flip chooses death (`rng() % 2 != 0`) and the patch
has at least one item, the victim index is `rng() % |items|` (one of the
items); the proposal is accepted exactly when `log U < L` with `L` the
negated energy of the chosen item (intensity plus pairwise interactions,
both ways, with all neighborhood items) plus `-log(item_type_count) -
2 log n` minus `-log(|items|)`; on acceptance the instance is removed from
the items list outright — the removed instance together with the remaining
items is a permutation of the original list (no ghost kept, no
deletion_tick recorded), and the length drops by one. -/
theorem mh_death_move (inter : position → position → ℕ → ℕ → ℚ)
    (intensity : position → ℕ → ℚ) (log_fn : ℕ → ℚ) (log_itc log_n : ℚ)
    (item_type_count n : ℕ) (patch_position : position)
    (nbhd : patch_neighborhood_model) (r0 r1 r2 r3 : ℕ) (log_random : ℚ)
    (h0 : r0 % 2 = 1) (hlen : 0 < (current_items nbhd).length) :
    (r1 % (current_items nbhd).length < (current_items nbhd).length)
    ∧ mh_patch_step inter intensity log_fn log_itc (2 * log_n) item_type_count n
        patch_position nbhd r0 r1 r2 r3 log_random
      = (if log_random < death_log_acceptance_spec inter intensity log_fn log_itc log_n
            ((current_items nbhd).getD (r1 % (current_items nbhd).length) default).item_type
            ((current_items nbhd).getD (r1 % (current_items nbhd).length) default).location
            (quadrant_items nbhd (patch_position.smul n)
              ((current_items nbhd).getD (r1 % (current_items nbhd).length) default).location n)
            (current_items nbhd).length
        then (current_items nbhd).eraseIdx (r1 % (current_items nbhd).length)
        else current_items nbhd)
    ∧ (((current_items nbhd).getD (r1 % (current_items nbhd).length) default
        :: (current_items nbhd).eraseIdx (r1 % (current_items nbhd).length)).Perm
          (current_items nbhd))
    ∧ ((current_items nbhd).eraseIdx (r1 % (current_items nbhd).length)).length + 1
        = (current_items nbhd).length := by
  have hidx : r1 % (current_items nbhd).length < (current_items nbhd).length :=
    Nat.mod_lt _ hlen
  refine ⟨hidx, ?_, ?_, List.length_eraseIdx_add_one hidx⟩
  · simp only [mh_patch_step, if_neg (by omega : ¬ r0 % 2 = 0), if_pos hlen]
    rw [death_scan_sum]
    simp only [death_log_acceptance_spec, zero_sub]
    have harith : ∀ S I F R : ℚ, - S - I + R - F = - (I + S) + R - F := by
      intro S I F R; ring
    rw [harith]
    rfl
  · have hget : (current_items nbhd).getD (r1 % (current_items nbhd).length) default
        = (current_items nbhd).get ⟨r1 % (current_items nbhd).length, hidx⟩ := by
      rw [List.getD_eq_getElem _ _ hidx]
      rfl
    rw [hget]
    have hmem : (current_items nbhd).get ⟨r1 % (current_items nbhd).length, hidx⟩
        ∈ current_items nbhd := List.get_mem _ _ _
    have h1 := List.perm_cons_erase hmem
    have h2 : ((current_items nbhd).erase
          ((current_items nbhd).get ⟨r1 % (current_items nbhd).length, hidx⟩)).Perm
        ((current_items nbhd).eraseIdx (r1 % (current_items nbhd).length)) := by
      have := List.erase_getElem hidx
        (l := current_items nbhd) (i := r1 % (current_items nbhd).length)
      simpa using this
    exact ((h2.symm.cons _).trans h1.symm).symm.symm

/-- Witness for the C2 theorem at a concrete input: one item present, empty
quadrant neighborhood for its cell, all energies zero, `log U = -1`; the
death proposal is accepted and the items list empties. -/
theorem mh_death_move_w :
    mh_patch_step (fun _ _ _ _ => 0) (fun _ _ => 0) (fun _ => 0) 0 (2 * 0) 1 1
      ⟨0, 0⟩ ⟨[], [[⟨0, ⟨0, 0⟩, 0, 0⟩]], [], []⟩ 1 0 0 0 (-1)
      = [] := by
  have h := mh_death_move (fun _ _ _ _ => 0) (fun _ _ => 0) (fun _ => 0) 0 0 1 1
    ⟨0, 0⟩ ⟨[], [[⟨0, ⟨0, 0⟩, 0, 0⟩]], [], []⟩ 1 0 0 0 (-1) (by decide)
    (by decide)
  rw [h.2.1]
  norm_num [quadrant_items, select_quadrant, current_items,
    death_log_acceptance_spec, position.smul]

/- ------------------------------------------------------------- -/
/- shuffle (src/jbw/gibbs_field.h 221-234)                        -/
/- ------------------------------------------------------------- -/

/-- Embeds `core::swap(array[i], array[j])` on a list: exchanges the
entries at the two indices (identity when an index is out of range; the
shuffle only ever swaps in-range indices). -/
def swap_at {α : Type} (l : List α) (i j : ℕ) : List α :=
  match l.get? i, l.get? j with
  | some x, some y => (l.set i y).set j x
  | _, _ => l

/-- Embeds the loop of `shuffle(array, length, rng)`: the counter runs
`for (i = length - 1; i > 0; i--)`, drawing `next = rng() % (i + 1)` and
swapping `array[next]` with `array[i]` unless `next == i`.  `r k` is the
value of the `(k+1)`-th `rng()` call.  The recursion is structural in the
loop counter, so the loop terminates for every input. -/
def shuffle_go {α : Type} (r : ℕ → ℕ) : List α → ℕ → ℕ → List α
  | a, _, 0 => a
  | a, k, i + 1 =>
    shuffle_go r
      (if r k % (i + 2) = i + 1 then a else swap_at a (r k % (i + 2)) (i + 1))
      (k + 1) i

/-- Embeds `shuffle(array, length, rng)` (Fisher–Yates).  The debug-build
guard returns the array unchanged when the length is zero. -/
def shuffle {α : Type} (l : List α) (r : ℕ → ℕ) : List α :=
  if l.length = 0 then l else shuffle_go r l 0 (l.length - 1)

theorem cons_set_perm {α : Type} (s : List α) :
    ∀ (m : ℕ) (y a : α), s.get? m = some y → (y :: s.set m a).Perm (a :: s) := by
  induction s with
  | nil => intro m y a h; simp at h
  | cons b t ih =>
    intro m y a h
    match m with
    | 0 =>
      simp only [List.get?] at h
      injection h with hy
      subst hy
      simp only [List.set]
      exact List.Perm.swap a b t
    | m' + 1 =>
      simp only [List.get?] at h
      simp only [List.set]
      have h1 : (y :: b :: t.set m' a).Perm (b :: y :: t.set m' a) := List.Perm.swap b y _
      have h2 : (b :: y :: t.set m' a).Perm (b :: a :: t) := (ih m' y a h).cons b
      have h3 : (b :: a :: t).Perm (a :: b :: t) := List.Perm.swap a b t
      exact (h1.trans h2).trans h3

theorem swap_at_self {α : Type} (l : List α) (i : ℕ) (x : α) (h : l.get? i = some x) :
    l.set i x = l := by
  induction l generalizing i with
  | nil => simp at h
  | cons b t ih =>
    match i with
    | 0 =>
      simp only [List.get?] at h
      cases h
      simp [List.set]
    | m + 1 =>
      simp only [List.get?] at h
      simp [List.set, ih m h]

theorem swap_at_perm {α : Type} (l : List α) : ∀ i j, (swap_at l i j).Perm l := by
  induction l with
  | nil => intro i j; simp [swap_at]
  | cons b t ih =>
    intro i j
    match i, j with
    | 0, 0 =>
      simp only [swap_at, List.get?]
      simp only [List.set]
      exact List.Perm.refl _
    | 0, m + 1 =>
      simp only [swap_at, List.get?]
      cases h : t.get? m with
      | none => exact List.Perm.refl _
      | some y =>
        simp only [List.set]
        exact cons_set_perm t m y b h
    | m + 1, 0 =>
      simp only [swap_at, List.get?]
      cases h : t.get? m with
      | none => exact List.Perm.refl _
      | some x =>
        simp only [List.set]
        exact cons_set_perm t m x b h
    | m + 1, k + 1 =>
      simp only [swap_at, List.get?]
      cases h1 : t.get? m with
      | none => exact List.Perm.refl _
      | some x =>
        cases h2 : t.get? k with
        | none => exact List.Perm.refl _
        | some y =>
          simp only [List.set]
          have := ih m k
          simp only [swap_at, h1, h2] at this
          exact this.cons b

theorem shuffle_go_perm {α : Type} (r : ℕ → ℕ) :
    ∀ (i k : ℕ) (a : List α), (shuffle_go r a k i).Perm a := by
  intro i
  induction i with
  | zero => intro k a; exact List.Perm.refl _
  | succ i ih =>
    intro k a
    rw [shuffle_go]
    refine (ih (k + 1) _).trans ?_
    by_cases hc : r k % (i + 2) = i + 1
    · rw [if_pos hc]
    · rw [if_neg hc]
      exact swap_at_perm a _ _

/-- C10: for every non-empty array and every random number generator,
`shuffle(array, length, rng)` terminates (the loop is structural recursion
on the counter) and leaves the array a permutation of its input: the length
and the multiset of elements are unchanged. -/
theorem shuffle_permutes {α : Type} (l : List α) (r : ℕ → ℕ) (h : 1 ≤ l.length) :
    (shuffle l r).length = l.length
    ∧ ((shuffle l r : List α) : Multiset α) = (l : Multiset α) := by
  have hp : (shuffle l r).Perm l := by
    unfold shuffle
    rw [if_neg (by omega)]
    exact shuffle_go_perm r _ _ _
  exact ⟨hp.length_eq, Multiset.coe_eq_coe.mpr hp⟩

/-- Witness for the C10 theorem on the concrete array `[10, 20, 30]` with a
concrete generator. -/
theorem shuffle_permutes_w :
    (shuffle [10, 20, 30] (fun k => k + 5)).length = 3
    ∧ ((shuffle [10, 20, 30] (fun k => k + 5) : List ℕ) : Multiset ℕ)
        = (([10, 20, 30] : List ℕ) : Multiset ℕ) :=
  shuffle_permutes [10, 20, 30] (fun k => k + 5) (by decide)

/- -------------------------------------------------------------------- -/
/- simulator_agent_states (src/api/python/src/jbw/simulator.cpp)         -/
/- -------------------------------------------------------------------- -/

/-- Embeds the local branch of `simulator_agent_states`: it calls
`simulator::get_agent_states(agent_states, agent_ids, agent_count)` —
`simulator.h` is not among the provided sources, so the lookup is modelled
from the spec as the agent-table query `lookup`, returning the state for a
known id and null (`none`) for an unknown id — and then builds the Python
list position by position, `None` for every null state pointer. -/
def local_agent_states {σ : Type} (lookup : ℕ → Option σ) (ids : List ℕ) :
    List (Option σ) :=
  ids.map lookup

/-- Modelled from the spec: the server's get_agent_states response (the
server side is not among the provided sources) — the pairs `(id, state)` of
the requested ids that name known agents, in request order; unknown ids are
omitted from the response. -/
def server_agent_states_response {σ : Type} (lookup : ℕ → Option σ) (ids : List ℕ) :
    List (ℕ × σ) :=
  ids.filterMap (fun i => (lookup i).map (fun s => (i, s)))

/-- Embeds the client branch of `simulator_agent_states`: the merge loop
walks the server response with `next_index`, emitting `None` whenever the
response is exhausted or the next response id differs from the requested
id, and consuming a response entry otherwise. -/
def client_merge_agent_states {σ : Type} : List ℕ → List (ℕ × σ) → List (Option σ)
  | [], _ => []
  | _ :: ids, [] => none :: client_merge_agent_states ids []
  | i :: ids, (rid, s) :: rest =>
    if rid ≠ i then none :: client_merge_agent_states ids ((rid, s) :: rest)
    else some s :: client_merge_agent_states ids rest

theorem server_agent_states_response_mem {σ : Type} (lookup : ℕ → Option σ) :
    ∀ (ids : List ℕ) (rid : ℕ) (s : σ),
      (rid, s) ∈ server_agent_states_response lookup ids → lookup rid = some s := by
  intro ids rid s hmem
  simp only [server_agent_states_response, List.mem_filterMap] at hmem
  obtain ⟨i, hi, hmap⟩ := hmem
  cases hl : lookup i with
  | none => rw [hl] at hmap; simp at hmap
  | some v =>
    rw [hl] at hmap
    simp at hmap
    obtain ⟨h1, h2⟩ := hmap
    rw [← h1, hl, h2]

theorem client_merge_reconstructs {σ : Type} (lookup : ℕ → Option σ) :
    ∀ (ids : List ℕ),
      client_merge_agent_states ids (server_agent_states_response lookup ids)
        = ids.map lookup := by
  intro ids
  induction ids with
  | nil => rfl
  | cons i ids ih =>
    cases hl : lookup i with
    | some s =>
      have hresp : server_agent_states_response lookup (i :: ids)
          = (i, s) :: server_agent_states_response lookup ids := by
        simp [server_agent_states_response, hl]
      rw [hresp, client_merge_agent_states, if_neg (by simp), ih, List.map_cons, hl]
    | none =>
      have hresp : server_agent_states_response lookup (i :: ids)
          = server_agent_states_response lookup ids := by
        simp [server_agent_states_response, hl]
      rw [hresp]
      cases hr : server_agent_states_response lookup ids with
      | nil =>
        rw [client_merge_agent_states, ← hr, ih, List.map_cons, hl]
      | cons p rest =>
        have hne : p.1 ≠ i := by
          intro he
          have := server_agent_states_response_mem lookup ids p.1 p.2
            (by rw [hr]; exact List.mem_cons_self _ _)
          rw [he, hl] at this
          exact Option.noConfusion this
        rw [show p = (p.1, p.2) from rfl, client_merge_agent_states, if_pos hne,
          ← hr, ih, List.map_cons, hl]

/-- C9: `get_agent_states`, given any list of agent ids, returns a list
parallel to the request — same length, same order — whose entry for every
id not naming a known agent is null (None) and whose entry for every known
id is that agent's state; this holds for the local branch (direct simulator
call) and for the client branch (merging the server's response). -/
theorem get_agent_states_parallel {σ : Type} (lookup : ℕ → Option σ) (ids : List ℕ) :
    (local_agent_states lookup ids).length = ids.length
    ∧ (∀ i : ℕ, (local_agent_states lookup ids).get? i = (ids.get? i).map lookup)
    ∧ (client_merge_agent_states ids (server_agent_states_response lookup ids)).length
        = ids.length
    ∧ client_merge_agent_states ids (server_agent_states_response lookup ids)
        = local_agent_states lookup ids := by
  refine ⟨List.length_map _ _, ?_, ?_, ?_⟩
  · intro i
    simp [local_agent_states, List.get?_map]
  · rw [client_merge_reconstructs]
    exact List.length_map _ _
  · rw [client_merge_reconstructs]
    rfl

/- -------------------------------------------------------------------- -/
/- simulator_save / simulator_load (src/api/python/src/jbw/simulator.cpp) -/
/- -------------------------------------------------------------------- -/

/-- Modelled from the spec: the fixed-width little-endian encoding of one
64-bit unsigned value (the `fixed_width_stream` byte layout of the lengths
and ids written by `simulator_save`; the stream implementation is not among
the provided sources). -/
def encode_u64 (v : ℕ) : List ℕ :=
  [v % 256, v / 256 % 256, v / 65536 % 256, v / 16777216 % 256,
   v / 4294967296 % 256, v / 1099511627776 % 256,
   v / 281474976710656 % 256, v / 72057594037927936 % 256]

/-- Modelled from the spec: reading one little-endian 64-bit value from the
front of a byte stream; fails (`none`) when fewer than 8 bytes remain. -/
def decode_u64 : List ℕ → Option (ℕ × List ℕ)
  | b0 :: b1 :: b2 :: b3 :: b4 :: b5 :: b6 :: b7 :: rest =>
    some (b0 + 256 * (b1 + 256 * (b2 + 256 * (b3 + 256 * (b4 + 256 *
      (b5 + 256 * (b6 + 256 * b7)))))), rest)
  | _ => none

/-- Reads `k` consecutive 64-bit values (the id arrays of the snapshot). -/
def decode_u64_list : ℕ → List ℕ → Option (List ℕ × List ℕ)
  | 0, bytes => some ([], bytes)
  | k + 1, bytes =>
    match decode_u64 bytes with
    | none => none
    | some (v, rest) =>
      match decode_u64_list k rest with
      | none => none
      | some (vs, rest2) => some (v :: vs, rest2)

/-- The data `simulator_save` serializes: the simulator state, the owned
agent-id list, the owned semaphore-id list, and the server state. -/
structure saved_sim_data (σ τ : Type) where
  sim : σ
  agent_ids : List ℕ
  semaphore_ids : List ℕ
  server : τ
deriving DecidableEq, Repr

/-- Embeds `simulator_save`: `write(*sim, out)`, then the agent-id count and
ids, then the semaphore-id count and ids, then `write(data.server.state,
out)`.  The simulator-state and server-state codecs live outside the
provided sources and are abstract parameters. -/
def simulator_save_bytes {σ τ : Type} (enc_sim : σ → List ℕ) (enc_srv : τ → List ℕ)
    (d : saved_sim_data σ τ) : List ℕ :=
  enc_sim d.sim
    ++ encode_u64 d.agent_ids.length ++ d.agent_ids.flatMap encode_u64
    ++ encode_u64 d.semaphore_ids.length ++ d.semaphore_ids.flatMap encode_u64
    ++ enc_srv d.server

/-- Embeds `simulator_load`: `read(*sim, in, data)`, then the agent-id
count and that many ids, then the semaphore-id count and ids, then the
server state; any read failure fails the whole load with no partial
state. -/
def simulator_load_bytes {σ τ : Type} (dec_sim : List ℕ → Option (σ × List ℕ))
    (dec_srv : List ℕ → Option (τ × List ℕ)) (bytes : List ℕ) :
    Option (saved_sim_data σ τ) :=
  match dec_sim bytes with
  | none => none
  | some (sim, r1) =>
    match decode_u64 r1 with
    | none => none
    | some (na, r2) =>
      match decode_u64_list na r2 with
      | none => none
      | some (agents, r3) =>
        match decode_u64 r3 with
        | none => none
        | some (ns, r4) =>
          match decode_u64_list ns r4 with
          | none => none
          | some (sems, r5) =>
            match dec_srv r5 with
            | none => none
            | some (srv, _) => some ⟨sim, agents, sems, srv⟩

theorem decode_encode_u64 (v : ℕ) (hv : v < 2 ^ 64) (rest : List ℕ) :
    decode_u64 (encode_u64 v ++ rest) = some (v, rest) := by
  have hv2 : v < 18446744073709551616 := by
    have : (2 : ℕ) ^ 64 = 18446744073709551616 := by norm_num
    omega
  simp only [encode_u64, List.cons_append, List.nil_append, decode_u64,
    Option.some.injEq, Prod.mk.injEq]
  refine ⟨?_, trivial⟩
  omega

theorem decode_encode_u64_list (l : List ℕ) (h : ∀ v ∈ l, v < 2 ^ 64) (rest : List ℕ) :
    decode_u64_list l.length (l.flatMap encode_u64 ++ rest) = some (l, rest) := by
  induction l with
  | nil => simp [decode_u64_list]
  | cons v vs ih =>
    rw [List.length_cons, List.flatMap_cons, List.append_assoc]
    rw [decode_u64_list]
    rw [decode_encode_u64 v (h v (List.mem_cons_self _ _)) _]
    dsimp only
    rw [ih (fun w hw => h w (List.mem_cons_of_mem _ hw))]

/-- C8: saving a simulator, loading it back, and saving the loaded
simulator produces a byte-identical file.  The saved bytes comprise the
simulator state, the owned agent-id list, the owned semaphore-id list and
the server state; the components whose codecs are outside the provided
sources (simulator state, server state) are abstract, assumed to parse back
what they print (the spec's byte-strict layout); the id-list layer is
concrete little-endian.  Loading the saved bytes recovers the saved data
exactly, so the second save equals the first byte for byte. -/
theorem simulator_save_load_roundtrip {σ τ : Type}
    (enc_sim : σ → List ℕ) (dec_sim : List ℕ → Option (σ × List ℕ))
    (enc_srv : τ → List ℕ) (dec_srv : List ℕ → Option (τ × List ℕ))
    (hsim : ∀ s rest, dec_sim (enc_sim s ++ rest) = some (s, rest))
    (hsrv : ∀ s rest, dec_srv (enc_srv s ++ rest) = some (s, rest))
    (d : saved_sim_data σ τ)
    (hagents : ∀ v ∈ d.agent_ids, v < 2 ^ 64)
    (hsems : ∀ v ∈ d.semaphore_ids, v < 2 ^ 64)
    (hna : d.agent_ids.length < 2 ^ 64)
    (hns : d.semaphore_ids.length < 2 ^ 64) :
    simulator_load_bytes dec_sim dec_srv (simulator_save_bytes enc_sim enc_srv d)
      = some d
    ∧ Option.map (simulator_save_bytes enc_sim enc_srv)
        (simulator_load_bytes dec_sim dec_srv (simulator_save_bytes enc_sim enc_srv d))
      = some (simulator_save_bytes enc_sim enc_srv d) := by
  have hload : simulator_load_bytes dec_sim dec_srv
      (simulator_save_bytes enc_sim enc_srv d) = some d := by
    rw [simulator_save_bytes, simulator_load_bytes]
    simp only [List.append_assoc]
    rw [hsim]
    dsimp only
    rw [decode_encode_u64 _ hna]
    dsimp only
    rw [decode_encode_u64_list _ hagents]
    dsimp only
    rw [decode_encode_u64 _ hns]
    dsimp only
    rw [decode_encode_u64_list _ hsems]
    dsimp only
    rw [show enc_srv d.server = enc_srv d.server ++ [] from (List.append_nil _).symm,
      hsrv]
  exact ⟨hload, by rw [hload]; rfl⟩

/-- The trivial codec for the abstract simulator / server components, used
by the round-trip witness. -/
def unit_enc : Unit → List ℕ := fun _ => []

/-- The trivial parser matching `unit_enc`. -/
def unit_dec : List ℕ → Option (Unit × List ℕ) := fun b => some ((), b)

/-- Witness for the C8 theorem at a concrete snapshot: two agent ids and
one semaphore id with trivial simulator/server components; the load of the
save is exactly the saved data. -/
theorem simulator_save_load_roundtrip_w :
    simulator_load_bytes unit_dec unit_dec
      (simulator_save_bytes unit_enc unit_enc ⟨(), [1, 2], [3], ()⟩)
      = some ⟨(), [1, 2], [3], ()⟩ :=
  (simulator_save_load_roundtrip unit_enc unit_dec unit_enc unit_dec
    (fun s rest => rfl) (fun s rest => rfl) ⟨(), [1, 2], [3], ()⟩
    (by decide) (by decide) (by decide) (by decide)).1

end jbw
